import Mathlib

/-!
Verification of the structured key-value parser and validator used by the
inventory-check and price-check components (inventorycheck.py build steps
1 to 5, pricecheck.py build steps 1 to 4).  The Python string operations
(strip, split, float conversion, strptime for the two month/day/year
formats) are embedded as executable Lean functions on lists of characters.
Machine floats are kept as exact rationals plus the non-finite values
(IEEE rounding is not modelled; no statement here depends on it), and
ASCII text is assumed (Python also accepts some non-ASCII digits and
whitespace, which the inputs of interest never contain).
-/

set_option maxHeartbeats 2000000

/-- Whitespace characters removed by Python str.strip with no argument
(ASCII subset). -/
def isPyWhitespace (c : Char) : Bool :=
  c == ' ' || c == '\t' || c == '\n' || c == '\r' || c == '\x0b' || c == '\x0c'

/-- Remove from both ends of a character list every character satisfying
p, the way Python str.strip does. -/
def stripEnds (p : Char → Bool) (l : List Char) : List Char :=
  ((l.dropWhile p).reverse.dropWhile p).reverse

/-- Python str.strip() with no argument. -/
def pyStrip (l : List Char) : List Char := stripEnds isPyWhitespace l

/-- Python str.strip with a double-quote argument: removes every leading
and trailing double-quote character, not just one layer. -/
def stripQuotes (l : List Char) : List Char := stripEnds (fun c => c == '"') l

/-- Python str.split on a comma: the empty string yields one empty
segment, and the split is not quote aware. -/
def splitComma : List Char → List (List Char)
  | [] => [[]]
  | c :: rest =>
    if c == ',' then [] :: splitComma rest
    else
      match splitComma rest with
      | [] => [[c]]
      | h :: t => (c :: h) :: t

/-- Python str.split on the equals sign with maxsplit 1: the text before
the first equals sign and the text after it, or none when the list has no
equals sign (in which case the Python split returns a single part). -/
def splitFirstEq : List Char → Option (List Char × List Char)
  | [] => none
  | c :: rest =>
    if c == '=' then some ([], rest)
    else
      match splitFirstEq rest with
      | none => none
      | some (a, b) => some (c :: a, b)

/-- The treatment the source applies to the text right of the equals
sign: strip whitespace, then strip surrounding double quotes. -/
def processValue (v : List Char) : List Char := stripQuotes (pyStrip v)

/-! ### Python float() -/

/-- Numeric value of an ASCII digit character. -/
def digitVal (c : Char) : Nat := c.toNat - 48

/-- Value of a string of ASCII digits, most significant first. -/
def digitsToNat (ds : List Char) : Nat :=
  ds.foldl (fun a c => 10 * a + digitVal c) 0

/-- CPython rule for underscores in numeric literals: every underscore
must sit between two digits.  The first argument is the character before
the current position. -/
def underscoresOKFrom : Char → List Char → Bool
  | _, [] => true
  | prev, c :: rest =>
    if c == '_' then
      prev.isDigit && (match rest with | d :: _ => d.isDigit | [] => false)
        && underscoresOKFrom c rest
    else underscoresOKFrom c rest

/-- Underscore placement check for a whole literal. -/
def underscoresOK (l : List Char) : Bool := underscoresOKFrom 'A' l

/-- Optional leading sign; returns whether the value is negated and the
rest of the text. -/
def parseSign : List Char → (Bool × List Char)
  | '+' :: r => (false, r)
  | '-' :: r => (true, r)
  | l => (false, l)

/-- Mantissa of a Python float literal: digits, then an optional point
with optional further digits, with at least one digit overall.  Returns
the digit value, the number of fractional digits, and the unconsumed
suffix. -/
def parseMantissa (l : List Char) : Option ((Nat × Nat) × List Char) :=
  let ip := l.takeWhile Char.isDigit
  let r1 := l.dropWhile Char.isDigit
  match r1 with
  | '.' :: r2 =>
    let fp := r2.takeWhile Char.isDigit
    let r3 := r2.dropWhile Char.isDigit
    if ip.isEmpty && fp.isEmpty then none
    else some ((digitsToNat (ip ++ fp), fp.length), r3)
  | _ =>
    if ip.isEmpty then none else some ((digitsToNat ip, 0), r1)

/-- Optional exponent after the mantissa; the literal must end after it.
Returns the unsigned mantissa value and the decimal exponent, so that the
number denoted is the mantissa times ten to the exponent. -/
def parseAfterMantissa (m : Nat × Nat) (r : List Char) : Option (Nat × Int) :=
  match r with
  | [] => some (m.1, -(m.2 : Int))
  | c :: r2 =>
    if c == 'e' || c == 'E' then
      let s := parseSign r2
      let eds := s.2.takeWhile Char.isDigit
      let r4 := s.2.dropWhile Char.isDigit
      if eds.isEmpty || !r4.isEmpty then none
      else
        let e : ℤ := if s.1 then -(digitsToNat eds : ℤ) else (digitsToNat eds : ℤ)
        some (m.1, e - (m.2 : Int))
    else none

/-- Result of a successful Python float conversion: a finite value kept
exact as a signed decimal mantissa m and exponent ex denoting m times
ten to ex (IEEE rounding is not modelled), or one of the non-finite
values. -/
inductive PyFloat where
  | finite : ℤ → ℤ → PyFloat
  | inf : PyFloat
  | neginf : PyFloat
  | nan : PyFloat
deriving DecidableEq, Repr

/-- Model of Python float(string): strip whitespace, check and delete
numeric underscores, take an optional sign, accept the words inf,
infinity and nan in any letter case, otherwise a decimal literal with an
optional exponent; none models a ValueError. -/
def pyFloatParse (l : List Char) : Option PyFloat :=
  let t := pyStrip l
  if !underscoresOK t then none
  else
    let u := t.filter (fun c => !(c == '_'))
    let s := parseSign u
    let low := s.2.map Char.toLower
    if low == "inf".data || low == "infinity".data then
      some (if s.1 then PyFloat.neginf else PyFloat.inf)
    else if low == "nan".data then some PyFloat.nan
    else
      match parseMantissa s.2 with
      | none => none
      | some (m, r) =>
        match parseAfterMantissa m r with
        | none => none
        | some (mant, ex) =>
          some (PyFloat.finite (if s.1 then -(mant : Int) else (mant : Int)) ex)

/-- Python int() applied to a finite float of value m times ten to ex:
truncation toward zero. -/
def pyTrunc (m ex : Int) : Int :=
  if 0 ≤ ex then m * ((10 ^ ex.toNat : Nat) : Int)
  else m.tdiv ((10 ^ (-ex).toNat : Nat) : Int)

/-! ### Python datetime.strptime for the formats m/d/y and m/d/Y -/

/-- Try each candidate (value, rest) in order, with the regex
backtracking discipline: the first candidate whose continuation succeeds
wins. -/
def tryAlts {α : Type} (cands : List (Nat × List Char))
    (k : Nat → List Char → Option α) : Option α :=
  match cands with
  | [] => none
  | (v, r) :: t =>
    match k v r with
    | some a => some a
    | none => tryAlts t k

/-- First month alternative of the strptime regex: a one then a digit
zero to two. -/
def monthAlt1 : List Char → Option (Nat × List Char)
  | c1 :: c2 :: rest =>
    if c1 == '1' && '0' ≤ c2 && c2 ≤ '2' then some (10 + digitVal c2, rest) else none
  | _ => none

/-- Second month alternative: a zero then a digit one to nine. -/
def monthAlt2 : List Char → Option (Nat × List Char)
  | c1 :: c2 :: rest =>
    if c1 == '0' && '1' ≤ c2 && c2 ≤ '9' then some (digitVal c2, rest) else none
  | _ => none

/-- Third month alternative: a single digit one to nine. -/
def monthAlt3 : List Char → Option (Nat × List Char)
  | c1 :: rest =>
    if '1' ≤ c1 && c1 ≤ '9' then some (digitVal c1, rest) else none
  | _ => none

/-- Month alternatives in regex order. -/
def monthAlts (l : List Char) : List (Nat × List Char) :=
  (monthAlt1 l).toList ++ (monthAlt2 l).toList ++ (monthAlt3 l).toList

/-- First day alternative of the strptime regex: a three then a zero or
one. -/
def dayAlt1 : List Char → Option (Nat × List Char)
  | c1 :: c2 :: rest =>
    if c1 == '3' && ('0' ≤ c2 && c2 ≤ '1') then some (30 + digitVal c2, rest)
    else none
  | _ => none

/-- Second day alternative: a one or two then any digit. -/
def dayAlt2 : List Char → Option (Nat × List Char)
  | c1 :: c2 :: rest =>
    if ('1' ≤ c1 && c1 ≤ '2') && c2.isDigit then
      some (10 * digitVal c1 + digitVal c2, rest)
    else none
  | _ => none

/-- Third day alternative: a zero then a digit one to nine. -/
def dayAlt3 : List Char → Option (Nat × List Char)
  | c1 :: c2 :: rest =>
    if c1 == '0' && '1' ≤ c2 && c2 ≤ '9' then some (digitVal c2, rest) else none
  | _ => none

/-- Fourth day alternative: a single digit one to nine. -/
def dayAlt4 : List Char → Option (Nat × List Char)
  | c1 :: rest =>
    if '1' ≤ c1 && c1 ≤ '9' then some (digitVal c1, rest) else none
  | _ => none

/-- Day alternatives in regex order. -/
def dayAlts (l : List Char) : List (Nat × List Char) :=
  (dayAlt1 l).toList ++ (dayAlt2 l).toList ++ (dayAlt3 l).toList ++
    (dayAlt4 l).toList

/-- Exactly two digits for the two-digit-year directive. -/
def year2 : List Char → Option (Nat × List Char)
  | c1 :: c2 :: rest =>
    if c1.isDigit && c2.isDigit then
      some (10 * digitVal c1 + digitVal c2, rest)
    else none
  | _ => none

/-- Exactly four digits for the four-digit-year directive. -/
def year4 : List Char → Option (Nat × List Char)
  | c1 :: c2 :: c3 :: c4 :: rest =>
    if c1.isDigit && c2.isDigit && c3.isDigit && c4.isDigit then
      some (1000 * digitVal c1 + 100 * digitVal c2 + 10 * digitVal c3 + digitVal c4,
        rest)
    else none
  | _ => none

/-- The literal slash of the format string. -/
def matchSlash : List Char → Option (List Char)
  | c :: r => if c == '/' then some r else none
  | [] => none

/-- Continuation after month, slash and day: the second literal slash,
then the year directive, then the end of the input (strptime rejects
unconverted data).  The year directive is a parameter, year2 for the
two-digit format and year4 for the four-digit one. -/
def dayCont (yearMatch : List Char → Option (Nat × List Char)) (m d : Nat)
    (r3 : List Char) : Option (Nat × Nat × Nat) :=
  match matchSlash r3 with
  | none => none
  | some r4 =>
    match yearMatch r4 with
    | some (yv, []) => some (m, d, yv)
    | _ => none

/-- Continuation after the month digits: the first literal slash, then
the day alternatives. -/
def monthCont (yearMatch : List Char → Option (Nat × List Char)) (m : Nat)
    (r1 : List Char) : Option (Nat × Nat × Nat) :=
  match matchSlash r1 with
  | none => none
  | some r2 => tryAlts (dayAlts r2) (dayCont yearMatch m)

/-- Full-string match of the strptime regex for month/day/year, with
the year directive as a parameter. -/
def matchMDY (yearMatch : List Char → Option (Nat × List Char))
    (l : List Char) : Option (Nat × Nat × Nat) :=
  tryAlts (monthAlts l) (monthCont yearMatch)

/-- Gregorian leap-year rule used by datetime. -/
def isLeap (y : Nat) : Bool := y % 4 == 0 && (y % 100 != 0 || y % 400 == 0)

/-- Length of a month, as validated by the datetime date constructor. -/
def daysInMonth (y m : Nat) : Nat :=
  if m == 2 then (if isLeap y then 29 else 28)
  else if m == 4 || m == 6 || m == 9 || m == 11 then 30 else 31

/-- The range check performed by the datetime date constructor. -/
def validDate (y m d : Nat) : Bool :=
  1 ≤ y && y ≤ 9999 && 1 ≤ m && m ≤ 12 && 1 ≤ d && d ≤ daysInMonth y m

/-- A calendar date produced by a successful strptime call. -/
structure PyDate where
  year : Nat
  month : Nat
  day : Nat
deriving DecidableEq, Repr

/-- Century mapping applied by strptime to a two-digit year: zero to 68
maps to 2000 onward, 69 to 99 to 1900 onward. -/
def century (yraw : Nat) : Nat := if yraw ≤ 68 then 2000 + yraw else 1900 + yraw

/-- strptime against one month/day/year format: regex match with the
given year directive, year mapping, then the date constructor range
check. -/
def strptimeMDY (yearMatch : List Char → Option (Nat × List Char))
    (mapYear : Nat → Nat) (l : List Char) : Option PyDate :=
  match matchMDY yearMatch l with
  | none => none
  | some (m, d, yraw) =>
    if validDate (mapYear yraw) m d then some ⟨mapYear yraw, m, d⟩ else none

/-- The tried_formats loop of the source: the two-digit-year format is
tried first, the four-digit-year format second, first success wins. -/
def parseDate (l : List Char) : Option PyDate :=
  match strptimeMDY year2 century l with
  | some d => some d
  | none => strptimeMDY year4 (fun y => y) l

/-- Two-digit zero padding used by strftime for months and days. -/
def pad2 (n : Nat) : String := if n < 10 then "0" ++ toString n else toString n

/-- strftime with the ISO year-month-day format (the year is printed
without padding, as on the glibc platform the source runs on; every year
in this development has four digits anyway). -/
def isoFormat (dt : PyDate) : String :=
  toString dt.year ++ "-" ++ pad2 dt.month ++ "-" ++ pad2 dt.day

/-- ASCII digit character of a value below ten. -/
def digitChar (k : Nat) : Char := Char.ofNat (48 + k)

/-- Two-digit character rendering of a month or day. -/
def pad2Chars (n : Nat) : List Char := [digitChar (n / 10), digitChar (n % 10)]

/-- Four-digit character rendering of a year. -/
def pad4Chars (y : Nat) : List Char :=
  [digitChar (y / 1000), digitChar (y / 100 % 10), digitChar (y / 10 % 10),
    digitChar (y % 10)]

/-- A date rendered back into the accepted month/day/four-digit-year
input format. -/
def fmtMDY4 (dt : PyDate) : List Char :=
  pad2Chars dt.month ++ ('/' :: (pad2Chars dt.day ++ ('/' :: pad4Chars dt.year)))

/-! ### The two parsers -/

/-- Outcome of one build invocation up to the point where the validated
record is handed to the HTTP call: a typed record, an error value carried
in the returned data (a ParseError), or an uncaught Python exception. -/
inductive ParseOutcome (α : Type) where
  | ok : α → ParseOutcome α
  | err : String → ParseOutcome α
  | raise : String → ParseOutcome α
deriving DecidableEq, Repr

/-- The validated record of the inventory parser. -/
structure InvRecord where
  buyer_part_number : String
  order_quantity : Int
  requested_fulfillment_date : String
deriving DecidableEq, Repr

/-- The validated record of the price parser. -/
structure PriceRecord where
  buyer_part_number : String
  po_price : PyFloat
deriving DecidableEq, Repr

/-- Field slots of the inventory schema. -/
inductive InvKey where
  | bpn : InvKey
  | qty : InvKey
  | date : InvKey
deriving DecidableEq, Repr

/-- Field slots of the price schema. -/
inductive PriceKey where
  | bpn : PriceKey
  | price : PriceKey
deriving DecidableEq, Repr

/-- Assignment of one classified segment to its slot; a later occurrence
of the same key overwrites an earlier one, as in the source loop. -/
def applyTok {κ : Type} [DecidableEq κ] (st : κ → Option (List Char))
    (t : κ × List Char) : κ → Option (List Char) :=
  fun k => if k = t.1 then some t.2 else st k

/-- All slots unassigned (the None placeholders of the source). -/
def noSlots {κ : Type} : κ → Option (List Char) := fun _ => none

/-- Classify every segment left to right, stopping at the first error,
as the source loop does (assignment cannot influence classification, so
classifying first and folding after is the same computation). -/
def classifyAll {κ : Type} (f : List Char → Except String (κ × List Char)) :
    List (List Char) → Except String (List (κ × List Char))
  | [] => .ok []
  | p :: rest =>
    match f p with
    | .error e => .error e
    | .ok t =>
      match classifyAll f rest with
      | .error e => .error e
      | .ok ts => .ok (t :: ts)

/-- Error message for a segment without an equals sign. -/
def segMsg (part : List Char) : String :=
  "Could not parse segment: " ++ String.mk part

/-- Error message for an unrecognized key. -/
def keyMsg (key part : List Char) : String :=
  "Unrecognized key \x27" ++ String.mk key ++ "\x27 in segment: " ++ String.mk part

/-- Segment handling of the inventory loop: strip the segment, split on
the first equals sign, strip the key, strip and unquote the value, and
recognize the three schema keys. -/
def invClassify (part : List Char) : Except String (InvKey × List Char) :=
  match splitFirstEq (pyStrip part) with
  | none => .error (segMsg part)
  | some (k, v) =>
    let key := pyStrip k
    let raw := processValue v
    if key = "buyer_part_number".data then .ok (InvKey.bpn, raw)
    else if key = "order_quantity".data then .ok (InvKey.qty, raw)
    else if key = "requested_fulfillment_date".data then .ok (InvKey.date, raw)
    else .error (keyMsg key part)

/-- Segment handling of the price loop. -/
def priceClassify (part : List Char) : Except String (PriceKey × List Char) :=
  match splitFirstEq (pyStrip part) with
  | none => .error (segMsg part)
  | some (k, v) =>
    let key := pyStrip k
    let raw := processValue v
    if key = "buyer_part_number".data then .ok (PriceKey.bpn, raw)
    else if key = "po_price".data then .ok (PriceKey.price, raw)
    else .error (keyMsg key part)

/-- Inventory segment-count error message. -/
def invCountMsg : String :=
  "Expected exactly 3 comma-separated segments. Format: buyer_part_number=\"...\", order_quantity=\"...\", requested_fulfillment_date=\"...\""

/-- Price segment-count error message. -/
def priceCountMsg : String :=
  "Expected exactly 2 comma-separated segments. Format: buyer_part_number=\"...\", po_price=\"...\""

/-- Empty or missing buyer part number message. -/
def bpnMsg : String := "\x27buyer_part_number\x27 must be a non-empty string."

/-- Non-positive quantity message. -/
def qtyPosMsg : String := "\x27order_quantity\x27 must be a positive integer."

/-- Non-numeric quantity message. -/
def qtyIntMsg : String :=
  "\x27order_quantity\x27 must be a valid integer (e.g., \x2732100\x27, \x2732100.000\x27)."

/-- Unparseable date message. -/
def dateMsg : String :=
  "\x27requested_fulfillment_date\x27 must be in \x27MM/DD/YY\x27 or \x27MM/DD/YYYY\x27 format (e.g., \x275/1/25\x27 or \x275/1/2025\x27)."

/-- Non-numeric price message. -/
def priceMsg : String := "\x27po_price\x27 must be a valid number (e.g., \x27125.50\x27)."

/-- Step 4 of the inventory build: float conversion, truncation to an
integer, positivity check.  A slot never assigned holds None, and float
of None raises a TypeError that the except clause (which names only
ValueError) does not catch; float of an infinity succeeds but the int
conversion raises an uncaught OverflowError, while int of nan raises a
ValueError that is caught. -/
def validateOrderQuantity : Option (List Char) → ParseOutcome Int
  | none => .raise "TypeError"
  | some s =>
    match pyFloatParse s with
    | none => .err qtyIntMsg
    | some PyFloat.nan => .err qtyIntMsg
    | some PyFloat.inf => .raise "OverflowError"
    | some PyFloat.neginf => .raise "OverflowError"
    | some (PyFloat.finite m ex) =>
      if pyTrunc m ex ≤ 0 then .err qtyPosMsg else .ok (pyTrunc m ex)

/-- Step 5 of the inventory build: the tried_formats loop; strptime of
None raises an uncaught TypeError. -/
def validateRequestedDate : Option (List Char) → ParseOutcome String
  | none => .raise "TypeError"
  | some s =>
    match parseDate s with
    | none => .err dateMsg
    | some d => .ok (isoFormat d)

/-- Step 4 of the price build: float conversion only; no positivity
check is performed on the price. -/
def validatePoPrice : Option (List Char) → ParseOutcome PyFloat
  | none => .raise "TypeError"
  | some s =>
    match pyFloatParse s with
    | none => .err priceMsg
    | some v => .ok v

/-- Steps 3 to 5 of the inventory build, applied to the three slots left
by the segment loop. -/
def validateInv (b q d : Option (List Char)) : ParseOutcome InvRecord :=
  match b with
  | none => .err bpnMsg
  | some bs =>
    if pyStrip bs = [] then .err bpnMsg
    else
      match validateOrderQuantity q with
      | .err e => .err e
      | .raise e => .raise e
      | .ok n =>
        match validateRequestedDate d with
        | .err e => .err e
        | .raise e => .raise e
        | .ok iso => .ok ⟨String.mk bs, n, iso⟩

/-- Steps 3 and 4 of the price build. -/
def validatePrice (b p : Option (List Char)) : ParseOutcome PriceRecord :=
  match b with
  | none => .err bpnMsg
  | some bs =>
    if pyStrip bs = [] then .err bpnMsg
    else
      match validatePoPrice p with
      | .err e => .err e
      | .raise e => .raise e
      | .ok v => .ok ⟨String.mk bs, v⟩

/-- The inventory build on an already split segment list: segment count
first, then the segment loop, then the field validations. -/
def parseInvParts (parts : List (List Char)) : ParseOutcome InvRecord :=
  if parts.length = 3 then
    match classifyAll invClassify parts with
    | .error e => .err e
    | .ok ts =>
      validateInv ((ts.foldl applyTok noSlots) InvKey.bpn)
        ((ts.foldl applyTok noSlots) InvKey.qty)
        ((ts.foldl applyTok noSlots) InvKey.date)
  else .err invCountMsg

/-- The price build on an already split segment list. -/
def parsePriceParts (parts : List (List Char)) : ParseOutcome PriceRecord :=
  if parts.length = 2 then
    match classifyAll priceClassify parts with
    | .error e => .err e
    | .ok ts =>
      validatePrice ((ts.foldl applyTok noSlots) PriceKey.bpn)
        ((ts.foldl applyTok noSlots) PriceKey.price)
  else .err priceCountMsg

/-- The comma-separated segments of an input string after the outer
strip, as computed by the source before its count check. -/
def segmentsOf (input : String) : List (List Char) :=
  splitComma (pyStrip input.data)

/-- The whole parse step of the inventory build. -/
def parseInventory (input : String) : ParseOutcome InvRecord :=
  parseInvParts (segmentsOf input)

/-- The whole parse step of the price build. -/
def parsePrice (input : String) : ParseOutcome PriceRecord :=
  parsePriceParts (segmentsOf input)

/-! ### Theorems -/

/-- C1: the claim that the parse step never raises an unhandled fault —
including when a valid key appears twice and another schema field is
never assigned — fails on the code: with buyer_part_number given twice,
order_quantity stays None, float(None) raises a TypeError, and the
except clause catches only ValueError, so the fault escapes.  This
theorem evaluates the embedded build at that input. -/
theorem inventory_duplicate_key_uncaught_type_error :
    parseInventory "buyer_part_number=\"a\", buyer_part_number=\"b\", requested_fulfillment_date=\"02/13/2025\"" =
      ParseOutcome.raise "TypeError" := by decide

/-- C2, counterexample: the source strips every leading and trailing
double quote from the value, not one layer, so a value wrapped in two
pairs of quotes loses both pairs rather than keeping one. -/
theorem value_double_quote_layers_counterexample :
    processValue ("\"\"abc\"\"".data) = "abc".data ∧
      "abc".data ≠ "\"abc\"".data := by decide

/-- C5: the date field tries the two-digit-year format first and the
four-digit-year format second, first success wins; both 02/13/25 and
02/13/2025 normalize to 2025-02-13, and 13/40/2025 fails with the
date-format error naming the example accepted formats. -/
theorem date_formats_tried_in_order :
    validateRequestedDate (some "02/13/25".data) = ParseOutcome.ok "2025-02-13" ∧
    validateRequestedDate (some "02/13/2025".data) = ParseOutcome.ok "2025-02-13" ∧
    strptimeMDY year2 century "02/13/25".data = some ⟨2025, 2, 13⟩ ∧
    strptimeMDY year2 century "02/13/2025".data = none ∧
    strptimeMDY year4 (fun y => y) "02/13/2025".data = some ⟨2025, 2, 13⟩ ∧
    validateRequestedDate (some "13/40/2025".data) = ParseOutcome.err dateMsg := by
  decide

/-- C6: a zero or negative quantity fails with the positive-integer
message, a non-numeric quantity fails with the valid-integer message,
and the two messages are distinct. -/
theorem quantity_error_messages_distinct :
    parseInventory "buyer_part_number=\"x\", order_quantity=\"0\", requested_fulfillment_date=\"02/13/25\"" =
      ParseOutcome.err qtyPosMsg ∧
    parseInventory "buyer_part_number=\"x\", order_quantity=\"-5\", requested_fulfillment_date=\"02/13/25\"" =
      ParseOutcome.err qtyPosMsg ∧
    parseInventory "buyer_part_number=\"x\", order_quantity=\"abc\", requested_fulfillment_date=\"02/13/25\"" =
      ParseOutcome.err qtyIntMsg ∧
    qtyPosMsg ≠ qtyIntMsg := by decide

/-- C7: the end-to-end inventory example parses to the record with the
part number kept as a string, the decimal quantity truncated to the
integer 32100, and the date normalized to 2025-02-13. -/
theorem inventory_end_to_end_example :
    parseInventory "buyer_part_number=\"3010228002\", order_quantity=\"32100.000\", requested_fulfillment_date=\"02/13/2025\"" =
      ParseOutcome.ok ⟨"3010228002", 32100, "2025-02-13"⟩ := by decide

/-- C8: the po_price validation fails exactly when float conversion
fails, and every value float accepts — zero and negatives included — is
carried into the result unchanged: there is no positivity check on the
price, unlike the quantity case. -/
theorem po_price_no_positivity_check :
    (∀ (s : List Char) (v : PyFloat), pyFloatParse s = some v →
      validatePoPrice (some s) = ParseOutcome.ok v) ∧
    (∀ s : List Char, pyFloatParse s = none →
      validatePoPrice (some s) = ParseOutcome.err priceMsg) ∧
    validatePoPrice (some "0".data) = ParseOutcome.ok (PyFloat.finite 0 0) ∧
    validatePoPrice (some "-5.0".data) = ParseOutcome.ok (PyFloat.finite (-50) (-1)) ∧
    parsePrice "buyer_part_number=\"3010228002\", po_price=\"abc\"" =
      ParseOutcome.err priceMsg := by
  refine ⟨?_, ?_, by decide, by decide, by decide⟩
  · intro s v h
    simp [validatePoPrice, h]
  · intro s h
    simp [validatePoPrice, h]

/-- Witness for C8 at a concrete negative price. -/
theorem po_price_no_positivity_check_witness :
    validatePoPrice (some "-7.25".data) = ParseOutcome.ok (PyFloat.finite (-725) (-2)) :=
  po_price_no_positivity_check.1 _ _ (by decide)

/-- C10: the non-finite numerals accepted by float — nan, inf, -inf,
Infinity — pass the po_price validation and are carried into the result
as float values instead of being rejected. -/
theorem po_price_accepts_non_finite :
    pyFloatParse "nan".data = some PyFloat.nan ∧
    pyFloatParse "inf".data = some PyFloat.inf ∧
    pyFloatParse "-inf".data = some PyFloat.neginf ∧
    pyFloatParse "Infinity".data = some PyFloat.inf ∧
    validatePoPrice (some "nan".data) = ParseOutcome.ok PyFloat.nan ∧
    validatePoPrice (some "inf".data) = ParseOutcome.ok PyFloat.inf ∧
    validatePoPrice (some "-inf".data) = ParseOutcome.ok PyFloat.neginf ∧
    validatePoPrice (some "Infinity".data) = ParseOutcome.ok PyFloat.inf ∧
    parsePrice "buyer_part_number=\"x\", po_price=\"inf\"" =
      ParseOutcome.ok ⟨"x", PyFloat.inf⟩ := by decide

/-- C3: the segment-count check comes before any per-segment check: any
input whose stripped text splits into a number of comma-separated
segments other than the schema field count fails with the count error
naming the expected count and the format string, whatever the segments
contain. -/
theorem segment_count_checked_first :
    (∀ input : String, (segmentsOf input).length ≠ 3 →
      parseInventory input = ParseOutcome.err invCountMsg) ∧
    (∀ input : String, (segmentsOf input).length ≠ 2 →
      parsePrice input = ParseOutcome.err priceCountMsg) := by
  constructor
  · intro input h
    unfold parseInventory parseInvParts
    rw [if_neg h]
  · intro input h
    unfold parsePrice parsePriceParts
    rw [if_neg h]

/-- Witness for C3: inputs holding all the right keys plus one stray
trailing comma-separated empty segment fail with the segment-count
error, not with a malformed-segment or key error. -/
theorem segment_count_checked_first_witness :
    ((segmentsOf "buyer_part_number=\"x\", order_quantity=\"1\", requested_fulfillment_date=\"02/13/25\",").length ≠ 3 ∧
      parseInventory "buyer_part_number=\"x\", order_quantity=\"1\", requested_fulfillment_date=\"02/13/25\"," =
        ParseOutcome.err invCountMsg) ∧
    ((segmentsOf "buyer_part_number=\"x\", po_price=\"1.5\",").length ≠ 2 ∧
      parsePrice "buyer_part_number=\"x\", po_price=\"1.5\"," =
        ParseOutcome.err priceCountMsg) :=
  ⟨⟨by decide, segment_count_checked_first.1 _ (by decide)⟩,
    ⟨by decide, segment_count_checked_first.2 _ (by decide)⟩⟩

/-! ### Helper lemmas on dropWhile -/

/-- Dropping a prefix never lengthens a list. -/
theorem dropWhileLenLe (p : Char → Bool) (l : List Char) :
    (l.dropWhile p).length ≤ l.length := by
  induction l with
  | nil => simp
  | cons a t ih =>
    rw [List.dropWhile_cons]
    split
    · exact Nat.le_trans ih (by simp)
    · simp

/-- A nonempty fixed point of dropWhile has a head the predicate
rejects. -/
theorem headFalseOfDropWhileSelf {p : Char → Bool} {a : Char} {t : List Char}
    (h : (a :: t).dropWhile p = a :: t) : p a = false := by
  by_contra hpa
  rw [Bool.not_eq_false] at hpa
  rw [List.dropWhile_cons, if_pos hpa] at h
  have hlen := dropWhileLenLe p t
  rw [h] at hlen
  simp at hlen

/-- dropWhile over a block of characters the predicate accepts. -/
theorem dropWhileReplicate (p : Char → Bool) (c : Char) (hc : p c = true)
    (n : Nat) (r : List Char) :
    ((List.replicate n c ++ r).dropWhile p) = r.dropWhile p := by
  induction n with
  | zero => simp
  | succ k ih => simp [List.replicate_succ, List.dropWhile_cons, hc, ih]

/-- Stripping quote layers from around a nonempty list whose two ends
are not quotes removes exactly the layers. -/
theorem stripQuotesWrap (n : Nat) (s : List Char) (hne : s ≠ [])
    (hsq : s.dropWhile (fun c => c == '"') = s)
    (hsq' : s.reverse.dropWhile (fun c => c == '"') = s.reverse) :
    stripQuotes (List.replicate n '"' ++ s ++ List.replicate n '"') = s := by
  unfold stripQuotes stripEnds
  obtain ⟨a, t, rfl⟩ : ∃ a t, s = a :: t := by
    cases s with
    | nil => exact absurd rfl hne
    | cons a t => exact ⟨_, _, rfl⟩
  have ha := headFalseOfDropWhileSelf hsq
  have e1 : ((List.replicate n '"' ++ (a :: t)) ++ List.replicate n '"').dropWhile
      (fun c => c == '"') = (a :: t) ++ List.replicate n '"' := by
    rw [List.append_assoc, dropWhileReplicate _ '"' (by decide), List.cons_append,
      List.dropWhile_cons, if_neg (by simp [ha])]
  rw [e1]
  have e2 : ((a :: t) ++ List.replicate n '"').reverse =
      List.replicate n '"' ++ (a :: t).reverse := by
    simp [List.reverse_append]
  rw [e2, dropWhileReplicate _ '"' (by decide), hsq']
  simp

/-- C2, amended: the source strips every leading and trailing double
quote from the trimmed value, leaving interior characters untouched: for
a string s that neither starts nor ends with a double quote or
whitespace, a value consisting of s inside any number of surrounding
quote pairs — one pair and two pairs in particular — yields raw value s,
with no layer preserved. -/
theorem value_quote_stripping_amended (s : List Char)
    (h1 : s.dropWhile (fun c => c == '"' || isPyWhitespace c) = s)
    (h2 : s.reverse.dropWhile (fun c => c == '"' || isPyWhitespace c) = s.reverse) :
    ∀ n : Nat,
      processValue (List.replicate n '"' ++ s ++ List.replicate n '"') = s := by
  intro n
  have hsq : s.dropWhile (fun c => c == '"') = s := by
    cases s with
    | nil => simp
    | cons a t =>
      have hh := headFalseOfDropWhileSelf h1
      simp only [Bool.or_eq_false_iff] at hh
      rw [List.dropWhile_cons, if_neg (by simp [hh.1])]
  have hsq' : s.reverse.dropWhile (fun c => c == '"') = s.reverse := by
    cases hrev : s.reverse with
    | nil => simp
    | cons b u =>
      rw [hrev] at h2
      have hh := headFalseOfDropWhileSelf h2
      simp only [Bool.or_eq_false_iff] at hh
      rw [List.dropWhile_cons, if_neg (by simp [hh.1])]
  have hsw : s.dropWhile isPyWhitespace = s := by
    cases s with
    | nil => simp
    | cons a t =>
      have hh := headFalseOfDropWhileSelf h1
      simp only [Bool.or_eq_false_iff] at hh
      rw [List.dropWhile_cons, if_neg (by simp [hh.2])]
  have hsw' : s.reverse.dropWhile isPyWhitespace = s.reverse := by
    cases hrev : s.reverse with
    | nil => simp
    | cons b u =>
      rw [hrev] at h2
      have hh := headFalseOfDropWhileSelf h2
      simp only [Bool.or_eq_false_iff] at hh
      rw [List.dropWhile_cons, if_neg (by simp [hh.2])]
  have hrevwrap :
      (List.replicate n '"' ++ s ++ List.replicate n '"').reverse =
        List.replicate n '"' ++ s.reverse ++ List.replicate n '"' := by
    simp [List.reverse_append, List.append_assoc]
  have hws : pyStrip (List.replicate n '"' ++ s ++ List.replicate n '"') =
      List.replicate n '"' ++ s ++ List.replicate n '"' := by
    unfold pyStrip stripEnds
    have fix : ∀ r : List Char, r.dropWhile isPyWhitespace = r →
        (List.replicate n '"' ++ r ++ List.replicate n '"').dropWhile isPyWhitespace =
          List.replicate n '"' ++ r ++ List.replicate n '"' := by
      intro r hr
      cases n with
      | zero =>
        simpa using hr
      | succ k =>
        rw [List.replicate_succ, List.cons_append, List.cons_append,
          List.dropWhile_cons, if_neg (by decide)]
    rw [fix s hsw, hrevwrap, fix s.reverse hsw', ← hrevwrap, List.reverse_reverse]
  rw [processValue, hws]
  cases s with
  | nil =>
    have repnil : List.replicate n '"' ++ ([] : List Char) ++ List.replicate n '"' =
        List.replicate (n + n) '"' ++ ([] : List Char) := by
      simp only [List.append_nil, List.replicate_add]
    rw [repnil]
    unfold stripQuotes stripEnds
    rw [dropWhileReplicate _ '"' (by decide)]
    simp
  | cons a t =>
    exact stripQuotesWrap n (a :: t) (by simp) hsq hsq'

/-- Witness for C2 amended, at one and two quote layers around a plain
string. -/
theorem value_quote_stripping_amended_witness :
    processValue ("\"abc\"".data) = "abc".data ∧
    processValue ("\"\"abc\"\"".data) = "abc".data := by
  have h := value_quote_stripping_amended ("abc".data) (by decide) (by decide)
  exact ⟨h 1, h 2⟩

/-! ### Permutation invariance of the segment loop -/

/-- Number of classified segments carrying a given key. -/
def keyCount {κ : Type} [DecidableEq κ] (k : κ) (ts : List (κ × List Char)) : Nat :=
  ts.countP (fun t => decide (t.1 = k))

/-- Classification preserves the segment count. -/
theorem classifyAllLength {κ : Type} (f : List Char → Except String (κ × List Char))
    (parts : List (List Char)) (ts : List (κ × List Char))
    (h : classifyAll f parts = .ok ts) : ts.length = parts.length := by
  induction parts generalizing ts with
  | nil =>
    simp only [classifyAll] at h
    cases h
    rfl
  | cons p rest ih =>
    simp only [classifyAll] at h
    cases hfp : f p with
    | error e => rw [hfp] at h; cases h
    | ok t =>
      rw [hfp] at h
      cases hrest : classifyAll f rest with
      | error e => rw [hrest] at h; cases h
      | ok ts0 =>
        rw [hrest] at h
        cases h
        simp [ih ts0 hrest]

/-- A permutation of the segments classifies to a permutation of the
tokens, when classification succeeds. -/
theorem classifyAllPerm {κ : Type} (f : List Char → Except String (κ × List Char))
    {l l' : List (List Char)} (h : l.Perm l') :
    ∀ ts, classifyAll f l = .ok ts →
      ∃ ts', classifyAll f l' = .ok ts' ∧ ts.Perm ts' := by
  induction h with
  | nil =>
    intro ts hok
    simp only [classifyAll] at hok
    cases hok
    exact ⟨[], rfl, List.Perm.refl []⟩
  | cons x hrest ih =>
    rename_i l1 l2
    intro ts hok
    simp only [classifyAll] at hok
    cases hfx : f x with
    | error e => rw [hfx] at hok; cases hok
    | ok t =>
      rw [hfx] at hok
      cases hcl : classifyAll f l1 with
      | error e => rw [hcl] at hok; cases hok
      | ok ts0 =>
        rw [hcl] at hok
        cases hok
        obtain ⟨ts0', hcl', hperm⟩ := ih ts0 hcl
        refine ⟨t :: ts0', ?_, hperm.cons t⟩
        simp [classifyAll, hfx, hcl']
  | swap x y l =>
    intro ts hok
    simp only [classifyAll] at hok ⊢
    cases hfy : f y with
    | error e => rw [hfy] at hok; cases hok
    | ok ty =>
      rw [hfy] at hok
      cases hfx : f x with
      | error e => rw [hfx] at hok; cases hok
      | ok tx =>
        rw [hfx] at hok
        cases hcl : classifyAll f l with
        | error e => rw [hcl] at hok; cases hok
        | ok ts0 =>
          rw [hcl] at hok
          cases hok
          exact ⟨tx :: ty :: ts0, by simp [hfx, hfy, hcl], List.Perm.swap tx ty ts0⟩
  | trans h1 h2 ih1 ih2 =>
    intro ts hok
    obtain ⟨ts1, hok1, hp1⟩ := ih1 ts hok
    obtain ⟨ts2, hok2, hp2⟩ := ih2 ts1 hok1
    exact ⟨ts2, hok2, hp1.trans hp2⟩

/-- A slot no token names keeps its initial content through the fold. -/
theorem foldlApplyNone {κ : Type} [DecidableEq κ] (ts : List (κ × List Char))
    (st : κ → Option (List Char)) (k : κ) (h : ∀ t ∈ ts, t.1 ≠ k) :
    (ts.foldl applyTok st) k = st k := by
  induction ts generalizing st with
  | nil => rfl
  | cons a ts ih =>
    rw [List.foldl_cons, ih (applyTok st a) (fun t ht => h t (List.mem_cons_of_mem a ht))]
    simp only [applyTok]
    rw [if_neg]
    intro hk
    exact h a (List.mem_cons_self a ts) (hk ▸ rfl)

/-- A slot holding a value after the fold, starting unassigned, was
named by some token. -/
theorem foldlSomeExists {κ : Type} [DecidableEq κ] (ts : List (κ × List Char))
    (k : κ) (v : List Char) (h : (ts.foldl applyTok noSlots) k = some v) :
    ∃ t ∈ ts, t.1 = k := by
  by_contra hc
  push_neg at hc
  rw [foldlApplyNone ts noSlots k hc] at h
  cases h

/-- Keys occurring at most once admit no two distinct tokens with the
same key. -/
theorem keyCountOneInj {κ : Type} [DecidableEq κ] {k : κ}
    {ts : List (κ × List Char)} (h : keyCount k ts = 1) :
    ∀ x ∈ ts, ∀ y ∈ ts, x.1 = k → y.1 = k → x = y := by
  induction ts with
  | nil => intro x hx; cases hx
  | cons a ts ih =>
    intro x hx y hy hxk hyk
    rw [keyCount, List.countP_cons] at h
    by_cases hak : a.1 = k
    · rw [if_pos (by simp [hak])] at h
      have hz : keyCount k ts = 0 := by
        rw [keyCount]
        omega
      have hnot : ∀ z ∈ ts, z.1 ≠ k := by
        intro z hz2 hzk
        have : 0 < keyCount k ts := by
          rw [keyCount, List.countP_pos_iff]
          exact ⟨z, hz2, by simp [hzk]⟩
        omega
      rcases List.mem_cons.mp hx with rfl | hx2
      · rcases List.mem_cons.mp hy with rfl | hy2
        · rfl
        · exact absurd hyk (hnot y hy2)
      · exact absurd hxk (hnot x hx2)
    · rw [if_neg (by simp [hak])] at h
      rcases List.mem_cons.mp hx with rfl | hx2
      · exact absurd hxk hak
      · rcases List.mem_cons.mp hy with rfl | hy2
        · exact absurd hyk hak
        · exact ih (by rw [keyCount]; omega) x hx2 y hy2 hxk hyk

/-- Folding assignments over a permutation of tokens whose keys are
pairwise distinct reaches the same slots. -/
theorem foldlApplyPerm {κ : Type} [DecidableEq κ]
    {ts ts' : List (κ × List Char)} (h : ts.Perm ts')
    (hone : ∀ k, keyCount k ts ≤ 1) (st : κ → Option (List Char)) :
    ts.foldl applyTok st = ts'.foldl applyTok st := by
  apply h.foldl_eq'
  intro x hx y hy z
  by_cases hxy : x.1 = y.1
  · have hxeq : x = y := by
      have hpos : 1 ≤ keyCount x.1 ts := by
        rw [keyCount]
        rw [Nat.one_le_iff_ne_zero, Ne, ← Nat.le_zero, Nat.not_le, List.countP_pos_iff]
        exact ⟨x, hx, by simp⟩
      have h1 : keyCount x.1 ts = 1 := Nat.le_antisymm (hone x.1) hpos
      exact keyCountOneInj h1 x hx y hy rfl hxy.symm
    subst hxeq
    rfl
  · funext k
    simp only [applyTok]
    by_cases h1 : k = x.1
    · subst h1
      rw [if_neg hxy, if_pos rfl, if_pos rfl]
    · by_cases h2 : k = y.1
      · subst h2
        rw [if_pos rfl, if_neg (fun hc => hxy hc.symm), if_pos rfl]
      · rw [if_neg h2, if_neg h1, if_neg h1, if_neg h2]

/-- A successful inventory validation has all three slots assigned. -/
theorem validateInvOkSlots {b q d : Option (List Char)} {r : InvRecord}
    (h : validateInv b q d = ParseOutcome.ok r) :
    b.isSome ∧ q.isSome ∧ d.isSome := by
  cases b with
  | none => cases h
  | some bs =>
    cases q with
    | none =>
      rw [validateInv] at h
      split at h
      · cases h
      · cases h
    | some qs =>
      cases d with
      | none =>
        rw [validateInv] at h
        split at h
        · cases h
        · cases hvq : validateOrderQuantity (some qs) with
          | err e => rw [hvq] at h; cases h
          | raise e => rw [hvq] at h; cases h
          | ok n =>
            rw [hvq] at h
            simp [validateRequestedDate] at h
      | some ds => exact ⟨rfl, rfl, rfl⟩

/-- A successful price validation has both slots assigned. -/
theorem validatePriceOkSlots {b p : Option (List Char)} {r : PriceRecord}
    (h : validatePrice b p = ParseOutcome.ok r) :
    b.isSome ∧ p.isSome := by
  cases b with
  | none => cases h
  | some bs =>
    cases p with
    | none =>
      rw [validatePrice] at h
      split at h
      · cases h
      · cases h
    | some ps => exact ⟨rfl, rfl⟩

/-- Every token of the inventory schema carries one of the three keys. -/
theorem invKeyCountSum (ts : List (InvKey × List Char)) :
    keyCount InvKey.bpn ts + keyCount InvKey.qty ts + keyCount InvKey.date ts =
      ts.length := by
  induction ts with
  | nil => simp [keyCount]
  | cons a ts ih =>
    obtain ⟨k, v⟩ := a
    simp only [keyCount, List.countP_cons] at *
    cases k <;> simp <;> omega

/-- Every token of the price schema carries one of the two keys. -/
theorem priceKeyCountSum (ts : List (PriceKey × List Char)) :
    keyCount PriceKey.bpn ts + keyCount PriceKey.price ts = ts.length := by
  induction ts with
  | nil => simp [keyCount]
  | cons a ts ih =>
    obtain ⟨k, v⟩ := a
    simp only [keyCount, List.countP_cons] at *
    cases k <;> simp <;> omega

/-- C4: a successful parse is order independent: any input whose
comma-separated segments are a permutation of the segments of a
successfully parsed input parses to the same record, for both schemas —
only the segment count and the keys matter, not segment position. -/
theorem segment_order_irrelevant :
    (∀ (x y : String) (r : InvRecord), (segmentsOf x).Perm (segmentsOf y) →
      parseInventory x = ParseOutcome.ok r → parseInventory y = ParseOutcome.ok r) ∧
    (∀ (x y : String) (r : PriceRecord), (segmentsOf x).Perm (segmentsOf y) →
      parsePrice x = ParseOutcome.ok r → parsePrice y = ParseOutcome.ok r) := by
  constructor
  · intro x y r hperm hok
    rw [parseInventory, parseInvParts] at hok
    rw [parseInventory, parseInvParts]
    by_cases hlen : (segmentsOf x).length = 3
    · rw [if_pos hlen] at hok
      cases hcl : classifyAll invClassify (segmentsOf x) with
      | error e => rw [hcl] at hok; cases hok
      | ok ts =>
        rw [hcl] at hok
        obtain ⟨hb, hq, hd⟩ := validateInvOkSlots hok
        obtain ⟨vb, hvb⟩ := Option.isSome_iff_exists.mp hb
        obtain ⟨vq, hvq⟩ := Option.isSome_iff_exists.mp hq
        obtain ⟨vd, hvd⟩ := Option.isSome_iff_exists.mp hd
        have posOf : ∀ k : InvKey, (∃ t ∈ ts, t.1 = k) → 1 ≤ keyCount k ts := by
          intro k hk
          obtain ⟨t, ht, htk⟩ := hk
          have hpos : 0 < ts.countP (fun t => decide (t.1 = k)) :=
            List.countP_pos_iff.mpr ⟨t, ht, by simp [htk]⟩
          rw [keyCount]
          omega
        have hcb := posOf _ (foldlSomeExists ts InvKey.bpn vb hvb)
        have hcq := posOf _ (foldlSomeExists ts InvKey.qty vq hvq)
        have hcd := posOf _ (foldlSomeExists ts InvKey.date vd hvd)
        have hlts : ts.length = 3 := by
          rw [classifyAllLength invClassify (segmentsOf x) ts hcl, hlen]
        have hsum := invKeyCountSum ts
        have hone : ∀ k : InvKey, keyCount k ts ≤ 1 := by
          intro k
          cases k <;> omega
        have hlen' : (segmentsOf y).length = 3 := by
          rw [← hperm.length_eq, hlen]
        obtain ⟨ts', hcl', hp⟩ := classifyAllPerm invClassify hperm ts hcl
        rw [if_pos hlen', hcl']
        show validateInv ((ts'.foldl applyTok noSlots) InvKey.bpn)
            ((ts'.foldl applyTok noSlots) InvKey.qty)
            ((ts'.foldl applyTok noSlots) InvKey.date) = ParseOutcome.ok r
        rw [← foldlApplyPerm hp hone noSlots]
        exact hok
    · rw [if_neg hlen] at hok
      cases hok
  · intro x y r hperm hok
    rw [parsePrice, parsePriceParts] at hok
    rw [parsePrice, parsePriceParts]
    by_cases hlen : (segmentsOf x).length = 2
    · rw [if_pos hlen] at hok
      cases hcl : classifyAll priceClassify (segmentsOf x) with
      | error e => rw [hcl] at hok; cases hok
      | ok ts =>
        rw [hcl] at hok
        obtain ⟨hb, hq⟩ := validatePriceOkSlots hok
        obtain ⟨vb, hvb⟩ := Option.isSome_iff_exists.mp hb
        obtain ⟨vq, hvq⟩ := Option.isSome_iff_exists.mp hq
        have posOf : ∀ k : PriceKey, (∃ t ∈ ts, t.1 = k) → 1 ≤ keyCount k ts := by
          intro k hk
          obtain ⟨t, ht, htk⟩ := hk
          have hpos : 0 < ts.countP (fun t => decide (t.1 = k)) :=
            List.countP_pos_iff.mpr ⟨t, ht, by simp [htk]⟩
          rw [keyCount]
          omega
        have hcb := posOf _ (foldlSomeExists ts PriceKey.bpn vb hvb)
        have hcq := posOf _ (foldlSomeExists ts PriceKey.price vq hvq)
        have hlts : ts.length = 2 := by
          rw [classifyAllLength priceClassify (segmentsOf x) ts hcl, hlen]
        have hsum := priceKeyCountSum ts
        have hone : ∀ k : PriceKey, keyCount k ts ≤ 1 := by
          intro k
          cases k <;> omega
        have hlen' : (segmentsOf y).length = 2 := by
          rw [← hperm.length_eq, hlen]
        obtain ⟨ts', hcl', hp⟩ := classifyAllPerm priceClassify hperm ts hcl
        rw [if_pos hlen', hcl']
        show validatePrice ((ts'.foldl applyTok noSlots) PriceKey.bpn)
            ((ts'.foldl applyTok noSlots) PriceKey.price) = ParseOutcome.ok r
        rw [← foldlApplyPerm hp hone noSlots]
        exact hok
    · rw [if_neg hlen] at hok
      cases hok

/-- Witness for C4: a concrete reordering of the segments of a
successfully parsed input yields the same record, for both schemas. -/
theorem segment_order_irrelevant_witness :
    parseInventory "order_quantity=\"2\",requested_fulfillment_date=\"02/13/25\",buyer_part_number=\"3010228002\"" =
      ParseOutcome.ok ⟨"3010228002", 2, "2025-02-13"⟩ ∧
    parsePrice "po_price=\"125.50\",buyer_part_number=\"3010228002\"" =
      ParseOutcome.ok ⟨"3010228002", PyFloat.finite 12550 (-2)⟩ :=
  ⟨segment_order_irrelevant.1
      "buyer_part_number=\"3010228002\",order_quantity=\"2\",requested_fulfillment_date=\"02/13/25\""
      _ _ (by decide) (by decide),
    segment_order_irrelevant.2
      "buyer_part_number=\"3010228002\",po_price=\"125.50\""
      _ _ (by decide) (by decide)⟩

/-! ### Round trip of date normalization -/

/-- Successful backtracking came from some candidate whose continuation
succeeded. -/
theorem tryAltsSome {α : Type} {cands : List (Nat × List Char)}
    {k : Nat → List Char → Option α} {a : α} (h : tryAlts cands k = some a) :
    ∃ p ∈ cands, k p.1 p.2 = some a := by
  induction cands with
  | nil => cases h
  | cons c t ih =>
    obtain ⟨v, r⟩ := c
    simp only [tryAlts] at h
    cases hk : k v r with
    | some b =>
      rw [hk] at h
      cases h
      exact ⟨(v, r), List.mem_cons_self _ _, hk⟩
    | none =>
      rw [hk] at h
      obtain ⟨p, hp, hkp⟩ := ih h
      exact ⟨p, List.mem_cons_of_mem _ hp, hkp⟩

/-- The first candidate wins when its continuation succeeds. -/
theorem tryAltsHead {α : Type} {v : Nat} {r : List Char}
    {t : List (Nat × List Char)} {k : Nat → List Char → Option α} {a : α}
    (h : k v r = some a) : tryAlts ((v, r) :: t) k = some a := by
  simp only [tryAlts, h]

/-- The first month alternative consumes two characters. -/
theorem monthAlt1Suffix {l : List Char} {v : Nat} {r : List Char}
    (h : monthAlt1 l = some (v, r)) : l.length ≤ r.length + 2 := by
  cases l with
  | nil => cases h
  | cons c1 t1 =>
    cases t1 with
    | nil => cases h
    | cons c2 rest =>
      simp only [monthAlt1] at h
      split at h
      · cases h
        simp only [List.length_cons]
        omega
      · cases h

/-- The second month alternative consumes two characters. -/
theorem monthAlt2Suffix {l : List Char} {v : Nat} {r : List Char}
    (h : monthAlt2 l = some (v, r)) : l.length ≤ r.length + 2 := by
  cases l with
  | nil => cases h
  | cons c1 t1 =>
    cases t1 with
    | nil => cases h
    | cons c2 rest =>
      simp only [monthAlt2] at h
      split at h
      · cases h
        simp only [List.length_cons]
        omega
      · cases h

/-- The third month alternative consumes one character. -/
theorem monthAlt3Suffix {l : List Char} {v : Nat} {r : List Char}
    (h : monthAlt3 l = some (v, r)) : l.length ≤ r.length + 2 := by
  cases l with
  | nil => cases h
  | cons c1 t1 =>
    simp only [monthAlt3] at h
    split at h
    · cases h
      simp only [List.length_cons]
      omega
    · cases h

/-- Every month candidate consumes one or two characters. -/
theorem monthAltsSuffix {l : List Char} :
    ∀ p ∈ monthAlts l, l.length ≤ p.2.length + 2 := by
  intro p hp
  obtain ⟨v, r⟩ := p
  rw [monthAlts, List.mem_append, List.mem_append] at hp
  rcases hp with (hp | hp) | hp
  · exact monthAlt1Suffix (Option.mem_def.mp (Option.mem_toList.mp hp))
  · exact monthAlt2Suffix (Option.mem_def.mp (Option.mem_toList.mp hp))
  · exact monthAlt3Suffix (Option.mem_def.mp (Option.mem_toList.mp hp))

/-- The first day alternative consumes two characters. -/
theorem dayAlt1Suffix {l : List Char} {v : Nat} {r : List Char}
    (h : dayAlt1 l = some (v, r)) : l.length ≤ r.length + 2 := by
  cases l with
  | nil => cases h
  | cons c1 t1 =>
    cases t1 with
    | nil => cases h
    | cons c2 rest =>
      simp only [dayAlt1] at h
      split at h
      · cases h
        simp only [List.length_cons]
        omega
      · cases h

/-- The second day alternative consumes two characters. -/
theorem dayAlt2Suffix {l : List Char} {v : Nat} {r : List Char}
    (h : dayAlt2 l = some (v, r)) : l.length ≤ r.length + 2 := by
  cases l with
  | nil => cases h
  | cons c1 t1 =>
    cases t1 with
    | nil => cases h
    | cons c2 rest =>
      simp only [dayAlt2] at h
      split at h
      · cases h
        simp only [List.length_cons]
        omega
      · cases h

/-- The third day alternative consumes two characters. -/
theorem dayAlt3Suffix {l : List Char} {v : Nat} {r : List Char}
    (h : dayAlt3 l = some (v, r)) : l.length ≤ r.length + 2 := by
  cases l with
  | nil => cases h
  | cons c1 t1 =>
    cases t1 with
    | nil => cases h
    | cons c2 rest =>
      simp only [dayAlt3] at h
      split at h
      · cases h
        simp only [List.length_cons]
        omega
      · cases h

/-- The fourth day alternative consumes one character. -/
theorem dayAlt4Suffix {l : List Char} {v : Nat} {r : List Char}
    (h : dayAlt4 l = some (v, r)) : l.length ≤ r.length + 2 := by
  cases l with
  | nil => cases h
  | cons c1 t1 =>
    simp only [dayAlt4] at h
    split at h
    · cases h
      simp only [List.length_cons]
      omega
    · cases h

/-- Every day candidate consumes one or two characters. -/
theorem dayAltsSuffix {l : List Char} :
    ∀ p ∈ dayAlts l, l.length ≤ p.2.length + 2 := by
  intro p hp
  obtain ⟨v, r⟩ := p
  rw [dayAlts, List.mem_append, List.mem_append, List.mem_append] at hp
  rcases hp with ((hp | hp) | hp) | hp
  · exact dayAlt1Suffix (Option.mem_def.mp (Option.mem_toList.mp hp))
  · exact dayAlt2Suffix (Option.mem_def.mp (Option.mem_toList.mp hp))
  · exact dayAlt3Suffix (Option.mem_def.mp (Option.mem_toList.mp hp))
  · exact dayAlt4Suffix (Option.mem_def.mp (Option.mem_toList.mp hp))

/-- The two-digit year consumes exactly two characters. -/
theorem year2Len {l : List Char} {y : Nat} {r : List Char}
    (h : year2 l = some (y, r)) : l.length = r.length + 2 := by
  cases l with
  | nil => cases h
  | cons c1 t1 =>
    cases t1 with
    | nil => cases h
    | cons c2 rest =>
      simp only [year2] at h
      split at h
      · cases h
        simp
      · cases h

/-- The slash matcher consumes exactly one character. -/
theorem matchSlashLen {l r : List Char} (h : matchSlash l = some r) :
    l.length = r.length + 1 := by
  cases l with
  | nil => cases h
  | cons c t =>
    simp only [matchSlash] at h
    split at h
    · cases h
      simp
    · cases h

/-- A successful two-digit-year match consumes at most eight characters
in total, so the first tried format never matches a rendering with a
four-digit year. -/
theorem matchMDY2Len {l : List Char} {x : Nat × Nat × Nat}
    (h : matchMDY year2 l = some x) : l.length ≤ 8 := by
  rw [matchMDY] at h
  obtain ⟨p, hmem, hk⟩ := tryAltsSome h
  obtain ⟨m, r1⟩ := p
  have hm : l.length ≤ r1.length + 2 := monthAltsSuffix _ hmem
  have hk1 : monthCont year2 m r1 = some x := hk
  rw [monthCont] at hk1
  cases hs1 : matchSlash r1 with
  | none => rw [hs1] at hk1; cases hk1
  | some r2 =>
    rw [hs1] at hk1
    have hr1 := matchSlashLen hs1
    obtain ⟨q, hdm, hk2⟩ := tryAltsSome hk1
    obtain ⟨d, r3⟩ := q
    have hday : r2.length ≤ r3.length + 2 := dayAltsSuffix _ hdm
    have hk3 : dayCont year2 m d r3 = some x := hk2
    rw [dayCont] at hk3
    cases hs2 : matchSlash r3 with
    | none => rw [hs2] at hk3; cases hk3
    | some r4 =>
      rw [hs2] at hk3
      have hr3 := matchSlashLen hs2
      have hk4 : (match year2 r4 with
          | some (yv, []) => some (m, d, yv)
          | _ => none) = some x := hk3
      cases hy : year2 r4 with
      | none => rw [hy] at hk4; cases hk4
      | some pr =>
        obtain ⟨yv, rest⟩ := pr
        rw [hy] at hk4
        cases rest with
        | nil =>
          have h2 := year2Len hy
          simp only [List.length_nil] at h2
          omega
        | cons c cs => cases hk4

/-- A digit character rendered from a value below ten is a digit. -/
theorem digitCharIsDigit {k : Nat} (h : k < 10) : (digitChar k).isDigit = true := by
  interval_cases k <;> decide

/-- Rendering then reading a digit below ten is the identity. -/
theorem digitCharVal {k : Nat} (h : k < 10) : digitVal (digitChar k) = k := by
  interval_cases k <;> decide

/-- The four-digit year directive reads back a zero-padded year. -/
theorem year4Pad {y : Nat} (h : y ≤ 9999) : year4 (pad4Chars y) = some (y, []) := by
  have ha : y / 1000 < 10 := by omega
  have hb : y / 100 % 10 < 10 := by omega
  have hc : y / 10 % 10 < 10 := by omega
  have hd : y % 10 < 10 := by omega
  simp only [pad4Chars, year4, digitCharIsDigit ha, digitCharIsDigit hb,
    digitCharIsDigit hc, digitCharIsDigit hd, Bool.and_self, if_true,
    digitCharVal ha, digitCharVal hb, digitCharVal hc, digitCharVal hd]
  have hy : 1000 * (y / 1000) + 100 * (y / 100 % 10) + 10 * (y / 10 % 10) + y % 10 = y := by
    omega
  rw [hy]

/-- The month alternatives put the intended month first on a two-digit
zero-padded rendering. -/
theorem monthAltsPad {m : Nat} (h1 : 1 ≤ m) (h2 : m ≤ 12) (r : List Char) :
    ∃ t, monthAlts (pad2Chars m ++ r) = (m, r) :: t := by
  interval_cases m <;> exact ⟨_, rfl⟩

/-- The day alternatives put the intended day first on a two-digit
zero-padded rendering. -/
theorem dayAltsPad {d : Nat} (h1 : 1 ≤ d) (h2 : d ≤ 31) (r : List Char) :
    ∃ t, dayAlts (pad2Chars d ++ r) = (d, r) :: t := by
  interval_cases d <;> exact ⟨_, rfl⟩

/-- A month/day/four-digit-year rendering is ten characters long. -/
theorem fmtLen (dt : PyDate) : (fmtMDY4 dt).length = 10 := by
  simp [fmtMDY4, pad2Chars, pad4Chars]

/-- The four-digit-year format reads a padded rendering back to its
components. -/
theorem matchMDYPad {y m d : Nat} (hy2 : y ≤ 9999)
    (hm1 : 1 ≤ m) (hm2 : m ≤ 12) (hd1 : 1 ≤ d) (hd2 : d ≤ 31) :
    matchMDY year4 (pad2Chars m ++ ('/' :: (pad2Chars d ++ ('/' :: pad4Chars y)))) =
      some (m, d, y) := by
  obtain ⟨tm, htm⟩ :=
    monthAltsPad hm1 hm2 ('/' :: (pad2Chars d ++ ('/' :: pad4Chars y)))
  obtain ⟨td, htd⟩ := dayAltsPad hd1 hd2 ('/' :: pad4Chars y)
  rw [matchMDY, htm]
  apply tryAltsHead
  rw [monthCont]
  rw [show matchSlash ('/' :: (pad2Chars d ++ ('/' :: pad4Chars y))) =
      some (pad2Chars d ++ ('/' :: pad4Chars y)) from rfl]
  show tryAlts (dayAlts (pad2Chars d ++ ('/' :: pad4Chars y))) (dayCont year4 m) =
    some (m, d, y)
  rw [htd]
  apply tryAltsHead
  rw [dayCont]
  rw [show matchSlash ('/' :: pad4Chars y) = some (pad4Chars y) from rfl]
  show (match year4 (pad4Chars y) with
      | some (yv, []) => some (m, d, yv)
      | _ => none) = some (m, d, y)
  rw [year4Pad hy2]

/-- A date produced by strptime passed the range check. -/
theorem strptimeMDYValid {ym : List Char → Option (Nat × List Char)}
    {my : Nat → Nat} {l : List Char} {dt : PyDate}
    (h : strptimeMDY ym my l = some dt) :
    validDate dt.year dt.month dt.day = true := by
  rw [strptimeMDY] at h
  cases hm : matchMDY ym l with
  | none => rw [hm] at h; cases h
  | some x =>
    rw [hm] at h
    obtain ⟨m, d, yraw⟩ := x
    have h2 : (if validDate (my yraw) m d then some (PyDate.mk (my yraw) m d)
        else none) = some dt := h
    split at h2
    · cases h2
      assumption
    · cases h2

/-- A date produced by the tried_formats loop passed the range check. -/
theorem parseDateValid {l : List Char} {dt : PyDate} (h : parseDate l = some dt) :
    validDate dt.year dt.month dt.day = true := by
  rw [parseDate] at h
  cases h1 : strptimeMDY year2 century l with
  | some d0 =>
    rw [h1] at h
    cases h
    exact strptimeMDYValid h1
  | none =>
    rw [h1] at h
    exact strptimeMDYValid h

/-- The component ranges guaranteed by the date constructor check. -/
theorem validDateBounds {y m d : Nat} (h : validDate y m d = true) :
    1 ≤ y ∧ y ≤ 9999 ∧ 1 ≤ m ∧ m ≤ 12 ∧ 1 ≤ d ∧ d ≤ 31 := by
  rw [validDate] at h
  simp only [Bool.and_eq_true, decide_eq_true_eq] at h
  obtain ⟨⟨⟨⟨⟨h1, h2⟩, h3⟩, h4⟩, h5⟩, h6⟩ := h
  have hle : daysInMonth y m ≤ 31 := by
    rw [daysInMonth]
    split
    · split <;> omega
    · split <;> omega
  exact ⟨h1, h2, h3, h4, h5, by omega⟩

/-- C9: date normalization round-trips: every date string the parser
accepts normalizes to the ISO form of a date whose rendering back into
the accepted MM/DD/YYYY input format re-parses to the same date, hence
to the same normalized ISO string. -/
theorem date_normalization_roundtrip (s : List Char) (dt : PyDate)
    (h : parseDate s = some dt) :
    validateRequestedDate (some s) = ParseOutcome.ok (isoFormat dt) ∧
    parseDate (fmtMDY4 dt) = some dt ∧
    validateRequestedDate (some (fmtMDY4 dt)) = ParseOutcome.ok (isoFormat dt) := by
  have hv := parseDateValid h
  obtain ⟨hy1, hy2, hm1, hm2, hd1, hd2⟩ := validDateBounds hv
  have hmain : parseDate (fmtMDY4 dt) = some dt := by
    obtain ⟨y, m, d⟩ := dt
    have hv' : validDate y m d = true := hv
    have hy2' : y ≤ 9999 := hy2
    have hm1' : 1 ≤ m := hm1
    have hm2' : m ≤ 12 := hm2
    have hd1' : 1 ≤ d := hd1
    have hd2' : d ≤ 31 := hd2
    rw [parseDate]
    have hfmt : fmtMDY4 ⟨y, m, d⟩ =
        pad2Chars m ++ ('/' :: (pad2Chars d ++ ('/' :: pad4Chars y))) := rfl
    have hnone : strptimeMDY year2 century (fmtMDY4 ⟨y, m, d⟩) = none := by
      rw [strptimeMDY]
      cases hmm : matchMDY year2 (fmtMDY4 ⟨y, m, d⟩) with
      | none => rfl
      | some x =>
        exfalso
        have hle := matchMDY2Len hmm
        have hlen : (fmtMDY4 (PyDate.mk y m d)).length = 10 := fmtLen _
        omega
    rw [hnone]
    show strptimeMDY year4 (fun yy => yy) (fmtMDY4 ⟨y, m, d⟩) = some ⟨y, m, d⟩
    rw [strptimeMDY, hfmt, matchMDYPad hy2' hm1' hm2' hd1' hd2']
    show (if validDate y m d then some (PyDate.mk y m d) else none) = some ⟨y, m, d⟩
    rw [if_pos hv']
  refine ⟨?_, hmain, ?_⟩
  · simp only [validateRequestedDate, h]
  · simp only [validateRequestedDate, hmain]

/-- Witness for C9 at a concrete two-digit-year input. -/
theorem date_normalization_roundtrip_witness :
    validateRequestedDate (some "02/13/25".data) = ParseOutcome.ok "2025-02-13" ∧
    parseDate (fmtMDY4 ⟨2025, 2, 13⟩) = some ⟨2025, 2, 13⟩ := by
  have h := date_normalization_roundtrip ("02/13/25".data) ⟨2025, 2, 13⟩ (by decide)
  exact ⟨h.1, h.2.1⟩
